import Mathlib

/-!
Verification of the anchor extension of duglin/goldmark
(src/extension/anchor.go): a tree-transform pass that inserts anchor
nodes into heading nodes, and a render pass that emits the anchor as an
HTML element.

Byte sequences (`[]byte` in Go) are modelled as `List Char`; the bytes the
code manipulates are compared and concatenated only, so the identification
is faithful.  The goldmark host machinery (the AST node operations, the
`ast.Walk` traversal, `util.EscapeHTML` and `html.RenderAttributes`) is part
of the repository but outside the anchor extension; it is modelled from the
spec's description of the consumed interfaces (§6), as noted on each
definition.
-/

namespace Anchor

/-- A goldmark node attribute value, as stored by `SetAttribute`.  The
anchor code only ever inspects attribute values through the type assertion
`idattr.([]byte)`, so the model distinguishes byte-sequence values from
every other dynamic type. -/
inductive AttrValue where
  | bytes (b : List Char)
  | other
deriving DecidableEq, Repr

/-- Modelled from the spec: the document tree produced by the external
parser, "nodes connected by parent/child/sibling relations".  A heading
node carries a nesting level and an attribute list; an anchor node is the
`Node` struct of anchor.go with fields `ID`, `Level`, `Value` plus the
generic attribute list; every other node kind is collapsed into `other`
(the transform and renderer never inspect anything else of them). -/
inductive Node where
  | heading (level : Nat) (attrs : List (String × AttrValue)) (children : List Node)
  | anchor (id : List Char) (level : Nat) (value : List Char)
      (attrs : List (String × AttrValue)) (children : List Node)
  | other (tag : Nat) (attrs : List (String × AttrValue)) (children : List Node)

/-- `HeaderInfo` of anchor.go: level and resolved identifier of a heading,
passed read-only to the policies. -/
structure HeaderInfo where
  level : Nat
  id : List Char
deriving DecidableEq, Repr

/-- `Position` of anchor.go: where the anchor is placed in a heading.
`after` is the Go zero value and hence the default. -/
inductive Position where
  | after
  | before
deriving DecidableEq, Repr

/-- The resolved configuration of a single transform traversal (`transform`
struct of anchor.go).  `Texter` and `Attributer` are one-method interfaces;
they are modelled as the functions their single methods denote.  An
`Attributer` returns a Go `map[string]string`; it is modelled as an
association list (the spec: keys unique, order not significant). -/
structure TConfig where
  texter : HeaderInfo → List Char
  position : Position
  attributer : HeaderInfo → List (String × String)

/-- `_defaultTexter = Text("¶")`: a `textTexter` ignores the header info
and returns its constant bytes. -/
def defaultTexter : HeaderInfo → List Char := fun _ => "¶".data

/-- `_defaultAttributer = Attributes{"class": "anchor"}`: a constant
attribute map. -/
def defaultAttributer : HeaderInfo → List (String × String) :=
  fun _ => [("class", "anchor")]

/-- Modelled from the spec: the node attribute getter keyed by name
(`h.AttributeString("id")`), returning the first stored value for the
name, or nothing when the attribute is absent. -/
def attrLookup (attrs : List (String × AttrValue)) (name : String) : Option AttrValue :=
  match attrs with
  | [] => none
  | (k, v) :: rest => if k = name then some v else attrLookup rest name

/-- `transform.transform` of anchor.go, acting on the heading's child
list.  Reads the `id` attribute (absent or non-bytes: return unchanged),
queries the `Texter` (empty: return unchanged), builds the anchor node
with the `Attributer`'s pairs stored as byte values
(`SetAttributeString(name, []byte(value))`), then appends it when the
heading has no children, prepends before the first child when the
position is `Before`, and appends after the last child otherwise. -/
def transformHeading (cfg : TConfig) (level : Nat)
    (attrs : List (String × AttrValue)) (children : List Node) : List Node :=
  match attrLookup attrs "id" with
  | none => children
  | some AttrValue.other => children
  | some (AttrValue.bytes id) =>
    let info : HeaderInfo := ⟨level, id⟩
    let text := cfg.texter info
    if text = [] then children
    else
      let n : Node := Node.anchor id level text
        ((cfg.attributer info).map (fun p => (p.1, AttrValue.bytes p.2.data))) []
      if children.isEmpty then [n]
      else if cfg.position = Position.before then n :: children
      else children ++ [n]

/-- Whether a node is an anchor node (`Kind() == Kind` of anchor.go). -/
def isAnchorNode : Node → Bool
  | Node.anchor _ _ _ _ _ => true
  | _ => false

/-- Number of anchor nodes among a list of children. -/
def anchorCount (cs : List Node) : Nat :=
  cs.countP (fun c => isAnchorNode c)

/-- The condition under which `transform.transform` actually inserts an
anchor: the heading has an `id` attribute whose value is a byte sequence,
and the `Texter` returns non-empty text for it.  (The emptiness of the
identifier itself is not checked by the code.) -/
def headingEligible (cfg : TConfig) (level : Nat)
    (attrs : List (String × AttrValue)) : Bool :=
  match attrLookup attrs "id" with
  | some (AttrValue.bytes id) => !(cfg.texter ⟨level, id⟩).isEmpty
  | _ => false

/-- The default transform configuration, as resolved by
`Transformer.Transform` when `Texter` and `Attributer` are nil. -/
def defaultTConfig : TConfig :=
  { texter := defaultTexter, position := Position.after,
    attributer := defaultAttributer }

/-- The anchor node built by `transform.transform` for a heading of the
given level and identifier. -/
def builtAnchor (cfg : TConfig) (level : Nat) (id : List Char) : Node :=
  Node.anchor id level (cfg.texter ⟨level, id⟩)
    ((cfg.attributer ⟨level, id⟩).map (fun p => (p.1, AttrValue.bytes p.2.data))) []

theorem transformHeading_eligible (cfg : TConfig) (level : Nat)
    (attrs : List (String × AttrValue)) (cs : List Node) (id : List Char)
    (hA : attrLookup attrs "id" = some (AttrValue.bytes id))
    (hT : cfg.texter ⟨level, id⟩ ≠ []) :
    transformHeading cfg level attrs cs =
      if cs.isEmpty then [builtAnchor cfg level id]
      else if cfg.position = Position.before then builtAnchor cfg level id :: cs
      else cs ++ [builtAnchor cfg level id] := by
  unfold transformHeading builtAnchor
  rw [hA]
  simp [hT]

theorem transformHeading_not_eligible (cfg : TConfig) (level : Nat)
    (attrs : List (String × AttrValue)) (cs : List Node)
    (h : headingEligible cfg level attrs = false) :
    transformHeading cfg level attrs cs = cs := by
  unfold headingEligible at h
  unfold transformHeading
  cases hA : attrLookup attrs "id" with
  | none => rfl
  | some v =>
    cases v with
    | other => rfl
    | bytes id =>
      rw [hA] at h
      simp only [Bool.not_eq_false', List.isEmpty_eq_true] at h
      simp [h]

theorem isAnchorNode_builtAnchor (cfg : TConfig) (level : Nat) (id : List Char) :
    isAnchorNode (builtAnchor cfg level id) = true := rfl

theorem anchorCount_transformHeading (cfg : TConfig) (level : Nat)
    (attrs : List (String × AttrValue)) (cs : List Node) :
    anchorCount (transformHeading cfg level attrs cs)
      = anchorCount cs + (if headingEligible cfg level attrs = true then 1 else 0) := by
  by_cases h : headingEligible cfg level attrs = true
  · unfold headingEligible at h
    cases hA : attrLookup attrs "id" with
    | none => rw [hA] at h; exact absurd h (by simp)
    | some v =>
      cases v with
      | other => rw [hA] at h; exact absurd h (by simp)
      | bytes id =>
        rw [hA] at h
        simp only [Bool.not_eq_true', List.isEmpty_eq_false] at h
        rw [transformHeading_eligible cfg level attrs cs id hA h]
        by_cases hcs : cs.isEmpty
        · rw [List.isEmpty_eq_true] at hcs
          subst hcs
          simp [anchorCount, isAnchorNode_builtAnchor, headingEligible, hA, h]
        · simp only [hcs, if_false]
          by_cases hp : cfg.position = Position.before
          · simp [hp, anchorCount, List.countP_cons, isAnchorNode_builtAnchor,
              headingEligible, hA, h, Nat.add_comm]
          · simp [hp, anchorCount, List.countP_append, isAnchorNode_builtAnchor,
              headingEligible, hA, h]
  · simp only [Bool.not_eq_true] at h
    rw [transformHeading_not_eligible cfg level attrs cs h, h]
    simp

example :
    transformHeading defaultTConfig 1 [("id", AttrValue.bytes "x".data)] []
      = [Node.anchor "x".data 1 "¶".data [("class", AttrValue.bytes "anchor".data)] []] := by
  rfl

example :
    anchorCount (transformHeading defaultTConfig 1 [("id", AttrValue.bytes [])] []) = 1 := by
  rfl

example :
    transformHeading defaultTConfig 1 [] [Node.other 0 [] []]
      = [Node.other 0 [] []] := by
  rfl

/-- Claim C1, counterexample.  The claim requires that a heading receives
an anchor only if its resolved identifier attribute is non-empty.  The
code never checks the emptiness of the identifier: a heading whose `id`
attribute is the empty byte sequence, under the default configuration
(whose texter always returns `¶`), receives one anchor, where the claim
requires zero. -/
theorem claim_C1_counterexample :
    anchorCount
      (transformHeading defaultTConfig 1 [("id", AttrValue.bytes [])] []) = 1 ∧
    attrLookup [("id", AttrValue.bytes [])] "id" = some (AttrValue.bytes []) := by
  constructor
  · rfl
  · rfl

/-- Claim C1, amended.  The transform pass inserts an anchor node into a
heading if and only if the heading carries an identifier attribute whose
value is a byte sequence (its emptiness is not checked) and the text
policy returns non-empty text for it; eligible headings receive exactly
one anchor per pass and all other headings receive zero: the anchor count
of the child list grows by exactly one when the heading is eligible and
is unchanged otherwise. -/
theorem claim_C1_insertion_iff (cfg : TConfig) (level : Nat)
    (attrs : List (String × AttrValue)) (cs : List Node) :
    anchorCount (transformHeading cfg level attrs cs)
      = anchorCount cs + (if headingEligible cfg level attrs = true then 1 else 0) :=
  anchorCount_transformHeading cfg level attrs cs

/-- Claim C2.  For an eligible heading: if it had no children, the anchor
becomes its only child; otherwise, with position `Before` it becomes
strictly the first child and with `After` strictly the last child, the
pre-existing children kept verbatim (hence in their relative order), and
it is never inserted into the middle. -/
theorem claim_C2_anchor_position (cfg : TConfig) (level : Nat)
    (attrs : List (String × AttrValue)) (cs : List Node)
    (h : headingEligible cfg level attrs = true) :
    ∃ a, isAnchorNode a = true ∧
      (cs = [] → transformHeading cfg level attrs cs = [a]) ∧
      (cs ≠ [] → cfg.position = Position.before →
        transformHeading cfg level attrs cs = a :: cs) ∧
      (cs ≠ [] → cfg.position = Position.after →
        transformHeading cfg level attrs cs = cs ++ [a]) := by
  unfold headingEligible at h
  cases hA : attrLookup attrs "id" with
  | none => rw [hA] at h; exact absurd h (by simp)
  | some v =>
    cases v with
    | other => rw [hA] at h; exact absurd h (by simp)
    | bytes id =>
      rw [hA] at h
      simp only [Bool.not_eq_true', List.isEmpty_eq_false] at h
      refine ⟨builtAnchor cfg level id, isAnchorNode_builtAnchor cfg level id, ?_, ?_, ?_⟩
      · intro hcs
        rw [transformHeading_eligible cfg level attrs cs id hA h, hcs]
        rfl
      · intro hcs hp
        rw [transformHeading_eligible cfg level attrs cs id hA h]
        simp [List.isEmpty_eq_false.mpr hcs, hp]
      · intro hcs hp
        rw [transformHeading_eligible cfg level attrs cs id hA h]
        simp [List.isEmpty_eq_false.mpr hcs, hp]

/-- Claim C2, witness at a concrete input: default configuration
(position `After`), heading level 1 with identifier `x` and one
pre-existing child. -/
theorem claim_C2_witness :
    headingEligible defaultTConfig 1 [("id", AttrValue.bytes "x".data)] = true ∧
    ∃ a, isAnchorNode a = true ∧
      (([Node.other 0 [] []] : List Node) = [] →
        transformHeading defaultTConfig 1 [("id", AttrValue.bytes "x".data)]
          [Node.other 0 [] []] = [a]) ∧
      (([Node.other 0 [] []] : List Node) ≠ [] →
        defaultTConfig.position = Position.before →
        transformHeading defaultTConfig 1 [("id", AttrValue.bytes "x".data)]
          [Node.other 0 [] []] = a :: [Node.other 0 [] []]) ∧
      (([Node.other 0 [] []] : List Node) ≠ [] →
        defaultTConfig.position = Position.after →
        transformHeading defaultTConfig 1 [("id", AttrValue.bytes "x".data)]
          [Node.other 0 [] []] = [Node.other 0 [] []] ++ [a]) :=
  ⟨by rfl,
   claim_C2_anchor_position defaultTConfig 1 [("id", AttrValue.bytes "x".data)]
     [Node.other 0 [] []] (by rfl)⟩

/-- Modelled from the spec: the generic markup-escaping helper
(`util.EscapeHTML`, outside src/): "given raw bytes, returns bytes safe
to embed in an element's text content or attribute value" — the
markup-special characters (the spec names `"` and `<`) are replaced by
their character entities, every other byte is kept verbatim. -/
def escapeChar (c : Char) : List Char :=
  if c = '<' then "&lt;".data
  else if c = '>' then "&gt;".data
  else if c = '\"' then "&quot;".data
  else if c = '&' then "&amp;".data
  else [c]

/-- Markup-escaping of a byte sequence: each byte escaped by
`escapeChar`. -/
def escapeHTML : List Char → List Char
  | [] => []
  | c :: rest => escapeChar c ++ escapeHTML rest

/-- The byte content of an attribute value as the attribute serializer
sees it: byte-sequence values verbatim, any other dynamic type
contributes no bytes. -/
def attrValueBytes : AttrValue → List Char
  | AttrValue.bytes b => b
  | AttrValue.other => []

/-- Modelled from the spec: the attribute serialization helper
(`html.RenderAttributes`, outside src/): "given a node's attribute map,
writes `name="escaped-value"` pairs to the sink", each pair preceded by a
single space. -/
def renderAttributes : List (String × AttrValue) → List Char
  | [] => []
  | (k, v) :: rest =>
      " ".data ++ k.data ++ "=\"".data ++ escapeHTML (attrValueBytes v) ++ "\"".data
        ++ renderAttributes rest

/-- Modelled from the spec: the status a traversal or render callback
returns — "callback returns one of \x7bcontinue, skip-subtree\x7d"
(`ast.WalkContinue` and `ast.WalkSkipChildren`). -/
inductive WalkStatus where
  | walkContinue
  | walkSkipChildren
deriving DecidableEq, Repr

/-- The fields of an anchor `Node` as `Renderer.RenderNode` reads them.
The renderer is registered for the anchor node kind only, so the Go type
assertion `node.(*Node)` always succeeds and the model takes the anchor
node's fields directly. -/
structure AnchorView where
  id : List Char
  level : Nat
  value : List Char
  attrs : List (String × AttrValue)
deriving DecidableEq, Repr

/-- `Renderer` of anchor.go: the render-time configuration.  `unescaped`
models the `Unsafe` flag (the banned-identifier-free name is ours; the
semantics is the source's). -/
structure RConfig where
  position : Position
  unescaped : Bool
deriving DecidableEq, Repr

/-- The outcome of one `RenderNode` invocation: the node after the call
(the Go code never assigns to the node, so the model threads it through
unchanged), the bytes written to the buffered writer, and the returned
walk status and error. -/
structure RenderResult where
  node : AnchorView
  out : List Char
  status : WalkStatus
  err : Option String
deriving Repr

/-- `Renderer.RenderNode` of anchor.go.  If the configured position does
not line up with the entering flag (`(r.Position == Before) != entering`)
or the node's ID is empty, nothing is written and the walk continues.
Otherwise a single space is written — before the element when the
position is `After`, after the element (via `defer`) when it is `Before`
— around the element `<a`, the serialized attributes, ` href="#`, the
HTML-escaped ID, `">`, the value (verbatim when the `Unsafe` flag is set,
HTML-escaped otherwise) and `</a>`. -/
def renderNode (r : RConfig) (n : AnchorView) (entering : Bool) : RenderResult :=
  if (decide (r.position = Position.before)) != entering then
    ⟨n, [], WalkStatus.walkContinue, none⟩
  else if n.id.isEmpty then
    ⟨n, [], WalkStatus.walkContinue, none⟩
  else
    let core := "<a".data ++ renderAttributes n.attrs ++ " href=\"#".data
      ++ escapeHTML n.id ++ "\">".data
      ++ (if r.unescaped then n.value else escapeHTML n.value)
      ++ "</a>".data
    let out := if r.position = Position.before then core ++ [' '] else ' ' :: core
    ⟨n, out, WalkStatus.walkContinue, none⟩

example :
    (renderNode ⟨Position.after, false⟩
      ⟨"x".data, 1, "¶".data, [("class", AttrValue.bytes "anchor".data)]⟩ false).out
      = " <a class=\"anchor\" href=\"#x\">¶</a>".data := by
  rfl

example :
    (renderNode ⟨Position.after, false⟩
      ⟨"x".data, 1, "¶".data, [("class", AttrValue.bytes "anchor".data)]⟩ true).out
      = [] := by
  rfl

theorem escapeChar_no_specials (b : Char) :
    ∀ c ∈ escapeChar b, c ≠ '<' ∧ c ≠ '\"' ∧ c ≠ '>' := by
  intro c hc
  unfold escapeChar at hc
  by_cases h1 : b = '<'
  · rw [if_pos h1] at hc
    have he : "&lt;".data = ['&', 'l', 't', ';'] := rfl
    rw [he] at hc
    fin_cases hc <;> exact ⟨by decide, by decide, by decide⟩
  · rw [if_neg h1] at hc
    by_cases h2 : b = '>'
    · rw [if_pos h2] at hc
      have he : "&gt;".data = ['&', 'g', 't', ';'] := rfl
      rw [he] at hc
      fin_cases hc <;> exact ⟨by decide, by decide, by decide⟩
    · rw [if_neg h2] at hc
      by_cases h3 : b = '\"'
      · rw [if_pos h3] at hc
        have he : "&quot;".data = ['&', 'q', 'u', 'o', 't', ';'] := rfl
        rw [he] at hc
        fin_cases hc <;> exact ⟨by decide, by decide, by decide⟩
      · rw [if_neg h3] at hc
        by_cases h4 : b = '&'
        · rw [if_pos h4] at hc
          have he : "&amp;".data = ['&', 'a', 'm', 'p', ';'] := rfl
          rw [he] at hc
          fin_cases hc <;> exact ⟨by decide, by decide, by decide⟩
        · rw [if_neg h4] at hc
          have hb := List.mem_singleton.mp hc
          subst hb
          exact ⟨h1, h3, h2⟩

/-- Markup-escaped bytes never contain a raw markup-special character:
neither the element-opening bracket, nor the double quote that would
close the surrounding attribute value, nor the closing bracket. -/
theorem escapeHTML_no_specials (bs : List Char) :
    ∀ c ∈ escapeHTML bs, c ≠ '<' ∧ c ≠ '\"' ∧ c ≠ '>' := by
  induction bs with
  | nil => intro c hc; simp [escapeHTML] at hc
  | cons b rest ih =>
    intro c hc
    unfold escapeHTML at hc
    rcases List.mem_append.mp hc with hc | hc
    · exact escapeChar_no_specials b c hc
    · exact ih c hc

/-- Claim C3.  In every invocation of `RenderNode`, bytes are emitted
exactly when the enter/exit flag matches the configured position
(entering for `Before`, exiting for `After`) and the node's identifier is
non-empty; every invocation — the unused half of the enter/exit pair and
the empty-identifier case included — returns the continue status with no
error. -/
theorem claim_C3_emission_gate (r : RConfig) (n : AnchorView) (entering : Bool) :
    ((renderNode r n entering).out ≠ [] ↔
      ((decide (r.position = Position.before)) = entering ∧ n.id ≠ [])) ∧
    (renderNode r n entering).status = WalkStatus.walkContinue ∧
    (renderNode r n entering).err = none := by
  obtain ⟨pos, un⟩ := r
  by_cases hid : n.id = []
  · cases pos <;> cases entering <;>
      simp [renderNode, hid]
  · cases pos <;> cases entering <;>
      simp [renderNode, hid, List.isEmpty_eq_false.mpr hid]

/-- Claim C4.  For every emitting invocation of `RenderNode`, the
identifier written into the `href` fragment is the HTML-escaped
identifier whether or not the `Unsafe` flag is set, the display text is
HTML-escaped exactly when the flag is unset and verbatim when it is set,
and the escaped identifier contains no raw markup-special character. -/
theorem claim_C4_escaping (r : RConfig) (n : AnchorView) (entering : Bool)
    (hm : (decide (r.position = Position.before)) = entering) (hid : n.id ≠ []) :
    (∃ s t, (renderNode r n entering).out
        = s ++ " href=\"#".data ++ escapeHTML n.id ++ "\">".data
          ++ (if r.unescaped then n.value else escapeHTML n.value)
          ++ "</a>".data ++ t) ∧
    (∀ c ∈ escapeHTML n.id, c ≠ '<' ∧ c ≠ '\"' ∧ c ≠ '>') := by
  refine ⟨?_, escapeHTML_no_specials n.id⟩
  unfold renderNode
  rw [hm]
  simp only [bne_self_eq_false, Bool.false_eq_true, if_false,
    List.isEmpty_eq_false.mpr hid, ite_false, Bool.false_eq_true]
  by_cases hp : r.position = Position.before
  · exact ⟨"<a".data ++ renderAttributes n.attrs, [' '], by simp [hp, List.append_assoc]⟩
  · exact ⟨' ' :: ("<a".data ++ renderAttributes n.attrs), [], by simp [hp, List.append_assoc]⟩

/-- Claim C5, witnessing the separating space.  For every emitting
invocation, the written bytes are a single space followed by the anchor
element when the position is `After`, and the anchor element followed by
a single space (the deferred write) when the position is `Before`; the
element itself starts with the opening tag and ends with the closing
tag. -/
theorem claim_C5_separating_space (r : RConfig) (n : AnchorView) (entering : Bool)
    (hm : (decide (r.position = Position.before)) = entering) (hid : n.id ≠ []) :
    ∃ core s t, core = "<a".data ++ s ∧ core = t ++ "</a>".data ∧
      (r.position = Position.after → (renderNode r n entering).out = ' ' :: core) ∧
      (r.position = Position.before → (renderNode r n entering).out = core ++ [' ']) := by
  refine ⟨"<a".data ++ renderAttributes n.attrs ++ " href=\"#".data
      ++ escapeHTML n.id ++ "\">".data
      ++ (if r.unescaped then n.value else escapeHTML n.value)
      ++ "</a>".data,
    renderAttributes n.attrs ++ " href=\"#".data
      ++ escapeHTML n.id ++ "\">".data
      ++ (if r.unescaped then n.value else escapeHTML n.value)
      ++ "</a>".data,
    "<a".data ++ renderAttributes n.attrs ++ " href=\"#".data
      ++ escapeHTML n.id ++ "\">".data
      ++ (if r.unescaped then n.value else escapeHTML n.value),
    by simp [List.append_assoc], by simp [List.append_assoc], ?_, ?_⟩
  · intro hp
    unfold renderNode
    rw [hm]
    have hp' : r.position ≠ Position.before := by rw [hp]; decide
    simp [List.isEmpty_eq_false.mpr hid, hp', List.append_assoc]
  · intro hp
    unfold renderNode
    rw [hm]
    simp [List.isEmpty_eq_false.mpr hid, hp, List.append_assoc]

/-- Claim C10.  `RenderNode` is deterministic: two invocations agreeing
on the node's ID, value, level and attribute list, on the entering flag
and on the position and escape configuration write the same bytes and
return the same status and error; no other state enters the result. -/
theorem claim_C10_determinism (r1 r2 : RConfig) (n1 n2 : AnchorView) (e1 e2 : Bool)
    (hp : r1.position = r2.position) (hu : r1.unescaped = r2.unescaped)
    (hid : n1.id = n2.id) (hv : n1.value = n2.value) (hl : n1.level = n2.level)
    (ha : n1.attrs = n2.attrs) (he : e1 = e2) :
    (renderNode r1 n1 e1).out = (renderNode r2 n2 e2).out ∧
    (renderNode r1 n1 e1).status = (renderNode r2 n2 e2).status ∧
    (renderNode r1 n1 e1).err = (renderNode r2 n2 e2).err := by
  have hn : n1 = n2 := by cases n1; cases n2; simp_all
  have hr : r1 = r2 := by cases r1; cases r2; simp_all
  subst hn
  subst hr
  subst he
  exact ⟨rfl, rfl, rfl⟩

/-- Children of a node, as exposed by the tree's child navigation. -/
def childrenOf : Node → List Node
  | Node.heading _ _ cs => cs
  | Node.anchor _ _ _ _ cs => cs
  | Node.other _ _ cs => cs

/-- The same node with its child list replaced (the only mutation the
tree interface allows besides attributes). -/
def withChildren : Node → List Node → Node
  | Node.heading l a _, cs => Node.heading l a cs
  | Node.anchor i l v a _, cs => Node.anchor i l v a cs
  | Node.other t a _, cs => Node.other t a cs

theorem sizeOf_childrenOf_lt (n : Node) : sizeOf (childrenOf n) < sizeOf n := by
  cases n <;> simp [childrenOf]

/-- `transform.Visit` of anchor.go, in state-passing style: given the
node and the entering flag, return the walk status, the error (always
nil in the source) and the node after the call.  Exit calls do nothing;
enter calls on non-headings do nothing; enter calls on a heading run
`transform.transform` on it and answer skip-children. -/
def visit (cfg : TConfig) (n : Node) (enter : Bool) :
    WalkStatus × Option String × Node :=
  if !enter then (WalkStatus.walkContinue, none, n)
  else
    match n with
    | Node.heading level attrs cs =>
        (WalkStatus.walkSkipChildren, none,
          Node.heading level attrs (transformHeading cfg level attrs cs))
    | _ => (WalkStatus.walkContinue, none, n)

/-- Outcome of walking one subtree: the subtree after the walk, the visit
trace (each node at the moment it was passed to the callback, with the
entering flag), and the error the walk reports. -/
structure WalkOutcome where
  node : Node
  trace : List (Node × Bool)
  err : Option String

mutual
/-- Modelled from the spec: the traversal primitive the transform rides
on (`ast.Walk`, outside src/): a "pre-order walk with an enter/exit
callback; callback returns one of \x7bcontinue, skip-subtree\x7d; walk
as a whole may fail, aborting remaining visits", here specialized to the
`transform.Visit` callback.  An error from the callback aborts the walk
at once; skip-subtree suppresses the descent into the children but not
the exit call; otherwise the children are walked in order and the exit
call follows.  In the continue case the callback has left the node
unchanged (`visit` only rewrites headings, for which it answers
skip-children), so the walk descends into the children of `n` itself. -/
def walkNode (cfg : TConfig) (n : Node) : WalkOutcome :=
  match visit cfg n true with
  | (_, some msg, n1) => ⟨n1, [(n, true)], some msg⟩
  | (WalkStatus.walkSkipChildren, none, n1) =>
      (match visit cfg n1 false with
       | (_, e2, n2) => ⟨n2, [(n, true), (n1, false)], e2⟩)
  | (WalkStatus.walkContinue, none, _) =>
      (match walkChildren cfg (childrenOf n) with
       | (cs1, tr, some msg) => ⟨withChildren n cs1, (n, true) :: tr, some msg⟩
       | (cs1, tr, none) =>
          (match visit cfg (withChildren n cs1) false with
           | (_, e2, n3) =>
              ⟨n3, ((n, true) :: tr) ++ [(withChildren n cs1, false)], e2⟩))
termination_by sizeOf n
decreasing_by
  simp_wf
  exact sizeOf_childrenOf_lt n

/-- One step of the traversal's child loop: walk each child in order,
aborting the loop when a child's walk reports an error. -/
def walkChildren (cfg : TConfig) (cs : List Node) :
    List Node × List (Node × Bool) × Option String :=
  match cs with
  | [] => ([], [], none)
  | c :: rest =>
      match walkNode cfg c with
      | ⟨c1, tr1, some msg⟩ => (c1 :: rest, tr1, some msg)
      | ⟨c1, tr1, none⟩ =>
          match walkChildren cfg rest with
          | (rest1, tr2, e) => (c1 :: rest1, tr1 ++ tr2, e)
termination_by sizeOf cs
end

/-- `Transformer` of anchor.go: the installable transform participant,
whose `Texter` and `Attributer` may be nil. -/
structure Transformer where
  texter : Option (HeaderInfo → List Char)
  position : Position
  attributer : Option (HeaderInfo → List (String × String))

/-- `Transformer.Transform` of anchor.go: resolve nil policies to the
defaults, then walk the document with `transform.Visit`, discarding the
walk's (always nil) error. -/
def Transformer.transformDoc (t : Transformer) (doc : Node) : Node :=
  (walkNode
    { texter := t.texter.getD defaultTexter,
      position := t.position,
      attributer := t.attributer.getD defaultAttributer } doc).node

theorem walkNode_heading_eq (cfg : TConfig) (l : Nat)
    (a : List (String × AttrValue)) (cs : List Node) :
    walkNode cfg (Node.heading l a cs)
      = ⟨Node.heading l a (transformHeading cfg l a cs),
         [(Node.heading l a cs, true),
          (Node.heading l a (transformHeading cfg l a cs), false)], none⟩ := by
  rw [walkNode]
  simp [visit]

theorem walkChildren_nil_eq (cfg : TConfig) :
    walkChildren cfg ([] : List Node) = ([], [], none) := by
  rw [walkChildren]

mutual
theorem walkNode_err_none (cfg : TConfig) (n : Node) :
    (walkNode cfg n).err = none := by
  cases n with
  | heading l a cs => rw [walkNode_heading_eq]
  | anchor i l v a cs =>
    rw [walkNode]
    have h := walkChildren_err_none cfg cs
    rcases hW : walkChildren cfg cs with ⟨cs1, tr, e⟩
    rw [hW] at h
    simp only at h
    subst h
    simp [visit, childrenOf, hW]
  | other t a cs =>
    rw [walkNode]
    have h := walkChildren_err_none cfg cs
    rcases hW : walkChildren cfg cs with ⟨cs1, tr, e⟩
    rw [hW] at h
    simp only at h
    subst h
    simp [visit, childrenOf, hW]
termination_by sizeOf n

theorem walkChildren_err_none (cfg : TConfig) (cs : List Node) :
    (walkChildren cfg cs).2.2 = none := by
  cases cs with
  | nil => rw [walkChildren_nil_eq]
  | cons c rest =>
    rw [walkChildren]
    have h1 := walkNode_err_none cfg c
    rcases hN : walkNode cfg c with ⟨c1, tr1, e1⟩
    rw [hN] at h1
    simp only at h1
    subst h1
    have h2 := walkChildren_err_none cfg rest
    rcases hR : walkChildren cfg rest with ⟨rest1, tr2, e2⟩
    rw [hR] at h2
    simp only at h2
    subst h2
    simp [hN, hR]
termination_by sizeOf cs
end

theorem walkNode_anchor_eq (cfg : TConfig) (i : List Char) (l : Nat)
    (v : List Char) (a : List (String × AttrValue)) (cs : List Node) :
    walkNode cfg (Node.anchor i l v a cs)
      = ⟨Node.anchor i l v a (walkChildren cfg cs).1,
         (Node.anchor i l v a cs, true) ::
           ((walkChildren cfg cs).2.1
             ++ [(Node.anchor i l v a (walkChildren cfg cs).1, false)]),
         none⟩ := by
  rw [walkNode]
  have h := walkChildren_err_none cfg cs
  rcases hW : walkChildren cfg cs with ⟨cs1, tr, e⟩
  rw [hW] at h
  simp only at h
  subst h
  simp [visit, childrenOf, withChildren, hW]

theorem walkNode_other_eq (cfg : TConfig) (tag : Nat)
    (a : List (String × AttrValue)) (cs : List Node) :
    walkNode cfg (Node.other tag a cs)
      = ⟨Node.other tag a (walkChildren cfg cs).1,
         (Node.other tag a cs, true) ::
           ((walkChildren cfg cs).2.1
             ++ [(Node.other tag a (walkChildren cfg cs).1, false)]),
         none⟩ := by
  rw [walkNode]
  have h := walkChildren_err_none cfg cs
  rcases hW : walkChildren cfg cs with ⟨cs1, tr, e⟩
  rw [hW] at h
  simp only at h
  subst h
  simp [visit, childrenOf, withChildren, hW]

theorem walkChildren_cons_eq (cfg : TConfig) (c : Node) (rest : List Node) :
    walkChildren cfg (c :: rest)
      = ((walkNode cfg c).node :: (walkChildren cfg rest).1,
         (walkNode cfg c).trace ++ (walkChildren cfg rest).2.1,
         (walkChildren cfg rest).2.2) := by
  rw [walkChildren]
  have h1 := walkNode_err_none cfg c
  rcases hN : walkNode cfg c with ⟨c1, tr1, e1⟩
  rw [hN] at h1
  simp only at h1
  subst h1
  rcases hR : walkChildren cfg rest with ⟨rest1, tr2, e2⟩
  simp [hN, hR]

mutual
/-- No anchor node occurs anywhere in the subtree. -/
def anchorFree : Node → Bool
  | Node.heading _ _ cs => anchorFreeList cs
  | Node.anchor _ _ _ _ _ => false
  | Node.other _ _ cs => anchorFreeList cs

/-- No anchor node occurs anywhere in any of the subtrees. -/
def anchorFreeList : List Node → Bool
  | [] => true
  | c :: rest => anchorFree c && anchorFreeList rest
end

mutual
/-- No heading node occurs anywhere in the subtree. -/
def headingFree : Node → Bool
  | Node.heading _ _ _ => false
  | Node.anchor _ _ _ _ cs => headingFreeList cs
  | Node.other _ _ cs => headingFreeList cs

/-- No heading node occurs anywhere in any of the subtrees. -/
def headingFreeList : List Node → Bool
  | [] => true
  | c :: rest => headingFree c && headingFreeList rest
end

mutual
theorem walkNode_trace_no_anchor (cfg : TConfig) (n : Node)
    (h : anchorFree n = true) :
    ∀ p ∈ (walkNode cfg n).trace, isAnchorNode p.1 = false := by
  cases n with
  | heading l a cs =>
    rw [walkNode_heading_eq]
    intro p hp
    rcases List.mem_pair.mp hp with rfl | rfl <;> rfl
  | anchor i l v a cs =>
    exact absurd h (by simp [anchorFree])
  | other tag a cs =>
    rw [walkNode_other_eq]
    intro p hp
    rcases List.mem_cons.mp hp with rfl | hp
    · rfl
    · rcases List.mem_append.mp hp with hp | hp
      · exact walkChildren_trace_no_anchor cfg cs (by simpa [anchorFree] using h) p hp
      · rcases List.mem_singleton.mp hp with rfl
        rfl
termination_by sizeOf n

theorem walkChildren_trace_no_anchor (cfg : TConfig) (cs : List Node)
    (h : anchorFreeList cs = true) :
    ∀ p ∈ (walkChildren cfg cs).2.1, isAnchorNode p.1 = false := by
  cases cs with
  | nil =>
    rw [walkChildren_nil_eq]
    intro p hp
    exact absurd hp (List.not_mem_nil p)
  | cons c rest =>
    rw [walkChildren_cons_eq]
    intro p hp
    have hc : anchorFree c = true ∧ anchorFreeList rest = true := by
      simpa [anchorFreeList, Bool.and_eq_true] using h
    rcases List.mem_append.mp hp with hp | hp
    · exact walkNode_trace_no_anchor cfg c hc.1 p hp
    · exact walkChildren_trace_no_anchor cfg rest hc.2 p hp
termination_by sizeOf cs
end

mutual
theorem walkNode_headingFree_fix (cfg : TConfig) (n : Node)
    (h : headingFree n = true) : (walkNode cfg n).node = n := by
  cases n with
  | heading l a cs =>
    exact absurd h (by simp [headingFree])
  | anchor i l v a cs =>
    rw [walkNode_anchor_eq]
    simp only [Node.anchor.injEq, true_and]
    exact walkChildren_headingFree_fix cfg cs (by simpa [headingFree] using h)
  | other tag a cs =>
    rw [walkNode_other_eq]
    simp only [Node.other.injEq, true_and]
    exact walkChildren_headingFree_fix cfg cs (by simpa [headingFree] using h)
termination_by sizeOf n

theorem walkChildren_headingFree_fix (cfg : TConfig) (cs : List Node)
    (h : headingFreeList cs = true) : (walkChildren cfg cs).1 = cs := by
  cases cs with
  | nil => rw [walkChildren_nil_eq]
  | cons c rest =>
    rw [walkChildren_cons_eq]
    have hc : headingFree c = true ∧ headingFreeList rest = true := by
      simpa [headingFreeList, Bool.and_eq_true] using h
    simp only [List.cons.injEq]
    exact ⟨walkNode_headingFree_fix cfg c hc.1,
      walkChildren_headingFree_fix cfg rest hc.2⟩
termination_by sizeOf cs
end

theorem headingEligible_iff (cfg : TConfig) (level : Nat)
    (attrs : List (String × AttrValue)) :
    headingEligible cfg level attrs = true ↔
      ∃ id, attrLookup attrs "id" = some (AttrValue.bytes id) ∧
        cfg.texter ⟨level, id⟩ ≠ [] := by
  unfold headingEligible
  cases hA : attrLookup attrs "id" with
  | none => simp
  | some v =>
    cases v with
    | other => simp
    | bytes id =>
      simp only [Option.some.injEq, Bool.not_eq_true', List.isEmpty_eq_false]
      constructor
      · intro h
        exact ⟨id, rfl, by simpa [List.isEmpty_eq_false] using h⟩
      · rintro ⟨id2, hid2, hT⟩
        cases hid2
        simpa [List.isEmpty_eq_false] using hT

theorem transformHeading_cases (cfg : TConfig) (level : Nat)
    (attrs : List (String × AttrValue)) (cs : List Node) :
    transformHeading cfg level attrs cs = cs ∨
    ∃ an, isAnchorNode an = true ∧
      (transformHeading cfg level attrs cs = an :: cs ∨
       transformHeading cfg level attrs cs = cs ++ [an]) := by
  by_cases he : headingEligible cfg level attrs = true
  · obtain ⟨id, hA, hT⟩ := (headingEligible_iff cfg level attrs).mp he
    right
    refine ⟨builtAnchor cfg level id, isAnchorNode_builtAnchor cfg level id, ?_⟩
    rw [transformHeading_eligible cfg level attrs cs id hA hT]
    by_cases hcs : cs.isEmpty
    · right
      rw [List.isEmpty_eq_true] at hcs
      simp [hcs]
    · by_cases hp : cfg.position = Position.before
      · left
        simp [hcs, hp]
      · right
        simp [hcs, hp]
  · left
    exact transformHeading_not_eligible cfg level attrs cs (by simpa using he)

/-- Claim C6.  Re-running the transform pass on the same heading is not
idempotent: for a heading eligible for an anchor (identifier attribute
present as bytes, non-empty policy text) and carrying no anchor yet, one
pass leaves exactly one anchor child and a second pass leaves exactly
two. -/
theorem claim_C6_double_run (cfg : TConfig) (level : Nat)
    (attrs : List (String × AttrValue)) (cs : List Node)
    (he : headingEligible cfg level attrs = true)
    (h0 : anchorCount cs = 0) :
    anchorCount (transformHeading cfg level attrs cs) = 1 ∧
    anchorCount (transformHeading cfg level attrs
      (transformHeading cfg level attrs cs)) = 2 := by
  constructor
  · simp [anchorCount_transformHeading, he, h0]
  · simp [anchorCount_transformHeading, he, h0]

/-- Claim C6, witness: a level-1 heading with identifier `x`, no
children, default policies — one anchor after one pass, two anchors
after two passes. -/
theorem claim_C6_witness :
    headingEligible defaultTConfig 1 [("id", AttrValue.bytes "x".data)] = true ∧
    anchorCount ([] : List Node) = 0 ∧
    (anchorCount (transformHeading defaultTConfig 1
        [("id", AttrValue.bytes "x".data)] []) = 1 ∧
     anchorCount (transformHeading defaultTConfig 1
        [("id", AttrValue.bytes "x".data)]
        (transformHeading defaultTConfig 1
          [("id", AttrValue.bytes "x".data)] [])) = 2) :=
  ⟨by rfl, by rfl,
   claim_C6_double_run defaultTConfig 1 [("id", AttrValue.bytes "x".data)] []
     (by rfl) (by rfl)⟩

/-- Claim C7.  During the transform pass the traversal never descends
into a heading's subtree: the walk of a heading visits exactly the
heading itself (one enter and one exit event, the latter on the already
transformed heading); and on a tree with no pre-existing anchor nodes,
no anchor — in particular no anchor the pass just inserted — is ever
passed to the visit callback. -/
theorem claim_C7_no_descent (cfg : TConfig) (t : Node) (level : Nat)
    (attrs : List (String × AttrValue)) (cs : List Node)
    (h : anchorFree t = true) :
    (walkNode cfg t).trace.all (fun p => !isAnchorNode p.1) = true ∧
    (walkNode cfg (Node.heading level attrs cs)).trace
      = [(Node.heading level attrs cs, true),
         (Node.heading level attrs (transformHeading cfg level attrs cs), false)] := by
  constructor
  · rw [List.all_eq_true]
    intro p hp
    simpa using walkNode_trace_no_anchor cfg t h p hp
  · rw [walkNode_heading_eq]

/-- Claim C7, witness: a two-node document (a container holding one
eligible heading) under the default configuration. -/
theorem claim_C7_witness :
    anchorFree (Node.other 0 []
      [Node.heading 1 [("id", AttrValue.bytes "x".data)] []]) = true ∧
    ((walkNode defaultTConfig (Node.other 0 []
        [Node.heading 1 [("id", AttrValue.bytes "x".data)] []])).trace.all
          (fun p => !isAnchorNode p.1) = true ∧
     (walkNode defaultTConfig (Node.heading 2 [] [])).trace
       = [(Node.heading 2 [] [], true),
          (Node.heading 2 [] (transformHeading defaultTConfig 2 [] []), false)]) :=
  ⟨by rfl,
   claim_C7_no_descent defaultTConfig
     (Node.other 0 [] [Node.heading 1 [("id", AttrValue.bytes "x".data)] []])
     2 [] [] (by rfl)⟩

/-- Claim C8.  Neither pass originates a failure: the visit callback
returns a nil error on every node, entering or exiting; the whole walk
always reports completion (nil error); ineligibility of a heading only
skips it, it never fails; and the render callback returns the continue
status with a nil error on every invocation. -/
theorem claim_C8_no_failures :
    (∀ (cfg : TConfig) (n : Node) (e : Bool), (visit cfg n e).2.1 = none) ∧
    (∀ (cfg : TConfig) (t : Node), (walkNode cfg t).err = none) ∧
    (∀ (cfg : TConfig) (level : Nat) (attrs : List (String × AttrValue))
        (cs : List Node),
      headingEligible cfg level attrs = false →
        transformHeading cfg level attrs cs = cs) ∧
    (∀ (r : RConfig) (n : AnchorView) (e : Bool),
      (renderNode r n e).status = WalkStatus.walkContinue ∧
      (renderNode r n e).err = none) := by
  refine ⟨?_, fun cfg t => walkNode_err_none cfg t,
    fun cfg level attrs cs h => transformHeading_not_eligible cfg level attrs cs h, ?_⟩
  · intro cfg n e
    cases e with
    | false => rfl
    | true => cases n <;> rfl
  · intro r n e
    obtain ⟨pos, un⟩ := r
    by_cases hid : n.id = []
    · cases pos <;> cases e <;> simp [renderNode, hid]
    · cases pos <;> cases e <;> simp [renderNode, hid, List.isEmpty_eq_false.mpr hid]

/-- Claim C8, witness: the skip-not-fail conjunct applied to a heading
with no attributes at all. -/
theorem claim_C8_witness :
    (visit defaultTConfig (Node.other 0 [] []) true).2.1 = none ∧
    (walkNode defaultTConfig (Node.heading 1 [] [])).err = none ∧
    headingEligible defaultTConfig 1 [] = false ∧
    transformHeading defaultTConfig 1 [] [] = [] :=
  ⟨claim_C8_no_failures.1 defaultTConfig (Node.other 0 [] []) true,
   claim_C8_no_failures.2.1 defaultTConfig (Node.heading 1 [] []),
   by rfl,
   claim_C8_no_failures.2.2.1 defaultTConfig 1 [] [] (by rfl)⟩

/-- Claim C9.  Frame property of the two passes.  The transform changes
no field of any node other than child lists: every walked node keeps its
kind, level, identifier, value and attributes (it is the input node with
some child list); a non-heading node's children are exactly the walked
originals; a heading's new child list is its transformed one, which is
the old list either unchanged or with a single anchor node added at the
front or at the back; a subtree containing no heading is returned
entirely unchanged; and the render callback leaves the node it renders
unchanged, producing output bytes only. -/
theorem claim_C9_frame (cfg : TConfig) (r : RConfig) (nv : AnchorView) (e : Bool) :
    (∀ t : Node, ∃ cs1, (walkNode cfg t).node = withChildren t cs1) ∧
    (∀ (tag : Nat) (a : List (String × AttrValue)) (cs : List Node),
      (walkNode cfg (Node.other tag a cs)).node
        = Node.other tag a (walkChildren cfg cs).1) ∧
    (∀ (i : List Char) (l : Nat) (v : List Char)
        (a : List (String × AttrValue)) (cs : List Node),
      (walkNode cfg (Node.anchor i l v a cs)).node
        = Node.anchor i l v a (walkChildren cfg cs).1) ∧
    (∀ (l : Nat) (a : List (String × AttrValue)) (cs : List Node),
      (walkNode cfg (Node.heading l a cs)).node
        = Node.heading l a (transformHeading cfg l a cs) ∧
      (transformHeading cfg l a cs = cs ∨
        ∃ an, isAnchorNode an = true ∧
          (transformHeading cfg l a cs = an :: cs ∨
           transformHeading cfg l a cs = cs ++ [an]))) ∧
    (∀ t : Node, headingFree t = true → (walkNode cfg t).node = t) ∧
    (renderNode r nv e).node = nv := by
  refine ⟨?_, ?_, ?_, ?_, fun t ht => walkNode_headingFree_fix cfg t ht, ?_⟩
  · intro t
    cases t with
    | heading l a cs =>
      exact ⟨transformHeading cfg l a cs, by rw [walkNode_heading_eq]; rfl⟩
    | anchor i l v a cs =>
      exact ⟨(walkChildren cfg cs).1, by rw [walkNode_anchor_eq]; rfl⟩
    | other tag a cs =>
      exact ⟨(walkChildren cfg cs).1, by rw [walkNode_other_eq]; rfl⟩
  · intro tag a cs
    rw [walkNode_other_eq]
  · intro i l v a cs
    rw [walkNode_anchor_eq]
  · intro l a cs
    exact ⟨by rw [walkNode_heading_eq], transformHeading_cases cfg l a cs⟩
  · obtain ⟨pos, un⟩ := r
    by_cases hid : nv.id = []
    · cases pos <;> cases e <;> simp [renderNode, hid]
    · cases pos <;> cases e <;> simp [renderNode, hid, List.isEmpty_eq_false.mpr hid]

/-- Claim C9, witness: the heading-free conjunct applied to a lone
non-heading node. -/
theorem claim_C9_witness :
    headingFree (Node.other 0 [] []) = true ∧
    (walkNode defaultTConfig (Node.other 0 [] [])).node = Node.other 0 [] [] :=
  ⟨by rfl,
   (claim_C9_frame defaultTConfig ⟨Position.after, false⟩
       ⟨"x".data, 1, "¶".data, []⟩ false).2.2.2.2.1
     (Node.other 0 [] []) (by rfl)⟩

/-- Claim C4, witness: position `After` at an exit call, escaping on, an
identifier containing a double quote and a value containing markup. -/
theorem claim_C4_witness :
    (decide ((⟨Position.after, false⟩ : RConfig).position = Position.before)) = false ∧
    ("a\"b".data ≠ ([] : List Char)) ∧
    ((∃ s t, (renderNode ⟨Position.after, false⟩
          ⟨"a\"b".data, 2, "<x>".data, []⟩ false).out
        = s ++ " href=\"#".data ++ escapeHTML "a\"b".data ++ "\">".data
          ++ (if (⟨Position.after, false⟩ : RConfig).unescaped then "<x>".data
              else escapeHTML "<x>".data)
          ++ "</a>".data ++ t) ∧
     (∀ c ∈ escapeHTML "a\"b".data, c ≠ '<' ∧ c ≠ '\"' ∧ c ≠ '>')) :=
  ⟨rfl, by decide,
   claim_C4_escaping ⟨Position.after, false⟩ ⟨"a\"b".data, 2, "<x>".data, []⟩
     false rfl (by decide)⟩

/-- Claim C5, witness: position `Before` at an enter call. -/
theorem claim_C5_witness :
    (decide ((⟨Position.before, true⟩ : RConfig).position = Position.before)) = true ∧
    ("id1".data ≠ ([] : List Char)) ∧
    (∃ core s t, core = "<a".data ++ s ∧ core = t ++ "</a>".data ∧
      ((⟨Position.before, true⟩ : RConfig).position = Position.after →
        (renderNode ⟨Position.before, true⟩
          ⟨"id1".data, 3, "#".data, []⟩ true).out = ' ' :: core) ∧
      ((⟨Position.before, true⟩ : RConfig).position = Position.before →
        (renderNode ⟨Position.before, true⟩
          ⟨"id1".data, 3, "#".data, []⟩ true).out = core ++ [' '])) :=
  ⟨rfl, by decide,
   claim_C5_separating_space ⟨Position.before, true⟩
     ⟨"id1".data, 3, "#".data, []⟩ true rfl (by decide)⟩

/-- Claim C10, witness: two invocations on field-wise equal inputs whose
identifier lists are written differently. -/
theorem claim_C10_witness :
    (renderNode ⟨Position.after, false⟩ ⟨"x".data, 1, "¶".data, []⟩ false).out
      = (renderNode ⟨Position.after, false⟩ ⟨['x'], 1, "¶".data, []⟩ false).out ∧
    (renderNode ⟨Position.after, false⟩ ⟨"x".data, 1, "¶".data, []⟩ false).status
      = (renderNode ⟨Position.after, false⟩ ⟨['x'], 1, "¶".data, []⟩ false).status ∧
    (renderNode ⟨Position.after, false⟩ ⟨"x".data, 1, "¶".data, []⟩ false).err
      = (renderNode ⟨Position.after, false⟩ ⟨['x'], 1, "¶".data, []⟩ false).err :=
  claim_C10_determinism ⟨Position.after, false⟩ ⟨Position.after, false⟩
    ⟨"x".data, 1, "¶".data, []⟩ ⟨['x'], 1, "¶".data, []⟩ false false
    rfl rfl (by decide) rfl rfl rfl rfl

end Anchor
